import Mathlib

/-!
Verification of the recommendation-synthesis core of the gosparqled
repository.

The Go sources embedded here are:
* package `autocompletion` (Scope model, connectivity trimming, path
  expansion, recommendation classifier, template-driven rendering);
* package `eval` (popularity ranker `Measure` / `getRecommendations`).

Go strings become Lean `String`, Go slices become `List`, the Go
`map[string]bool` scope set becomes a duplicate-free `List String` grown by
`insertT` (insertion order is irrelevant: only membership is ever read).
Go `int` counts become unbounded `Int`; the `pathLength` field, which the
grammar only ever sets from a nonnegative `INTEGER` token via
`strconv.Atoi`, becomes `Nat`.  The external `text/template` engine is
abstracted: a parsed template is modelled as an optional rendering function
over the template-visible fields of a Scope (Go templates can only read
exported fields), and the nil-template dereference that Go would panic on
is modelled by an `Option` result.
-/

set_option maxRecDepth 4000

/-- Go `triplePattern`: a SPARQL triple pattern with string-typed terms. -/
structure triplePattern where
  S : String
  P : String
  O : String
deriving DecidableEq, Repr

/-- The three terms of a triple pattern, in field order. -/
def terms (tp : triplePattern) : List String := [tp.S, tp.P, tp.O]

/-- The reserved Point Of Focus variable. -/
def pofTerm : String := "?POF"

/-- The fields of a Go `Scope` that `text/template` rendering can read:
the exported fields `Tps`, `Keyword`, `Pof` and the promoted embedded
triple-pattern fields `S`, `P`, `O`.  The unexported `scope`, `template`
and `pathLength` fields are invisible to templates. -/
structure RenderView where
  S : String
  P : String
  O : String
  Tps : List triplePattern
  Keyword : String
  Pof : String
deriving DecidableEq, Repr

/-- Go `Scope`: the per-request focus graph and parse state.  The embedded
current triple pattern is flattened into the fields `S`, `P`, `O`; the
`template` field holds the (abstracted) parsed template, `none` standing
for Go's nil `*template.Template`. -/
structure Scope where
  S : String := ""
  P : String := ""
  O : String := ""
  Tps : List triplePattern := []
  scope : List String := []
  template : Option (RenderView → String) := none
  Keyword : String := ""
  pathLength : Nat := 0
  Pof : String := "?POF"

/-- Go `Scope.Reset`: clear `Keyword`, `pathLength`, restore `Pof`, and
truncate the pattern list (`b.Tps = b.Tps[:0]`). -/
def Reset (b : Scope) : Scope :=
  { b with Keyword := "", pathLength := 0, Pof := "?POF", Tps := [] }

/-- Adding one key to the scope set (`b.scope[x] = true` on the Go map):
a no-op when the key is present, otherwise the key is appended. -/
def insertT (sc : List String) (x : String) : List String :=
  if x ∈ sc then sc else sc ++ [x]

/-- Go `triplePattern.in`: `scope[tp.S] || scope[tp.P] || scope[tp.O]`. -/
def tpIn (tp : triplePattern) (sc : List String) : Bool :=
  decide (tp.S ∈ sc) || decide (tp.P ∈ sc) || decide (tp.O ∈ sc)

/-- Go `triplePattern.addToScope`: insert all three terms. -/
def addToScope (tp : triplePattern) (sc : List String) : List String :=
  insertT (insertT (insertT sc tp.S) tp.P) tp.O

/-- One inner pass of `trimToScope`'s loop: scan the patterns in order,
and any pattern touching the (mutating) scope set contributes its terms. -/
def scanPass (tps : List triplePattern) (sc : List String) : List String :=
  tps.foldl (fun sc tp => if tpIn tp sc then addToScope tp sc else sc) sc

/-- The `for size != len(b.scope)` loop of `trimToScope`: repeat `scanPass`
until a pass leaves the number of scope entries unchanged.  The Go loop
terminates because the set only grows and is bounded by the term universe;
the fuel given to `fixLoop` by `fixScope` is proved large enough below, so
the fuel-free Go loop and this function agree. -/
def fixLoop (tps : List triplePattern) : Nat → List String → List String
  | 0, sc => sc
  | Nat.succ fuel, sc =>
    if (scanPass tps sc).length = sc.length then scanPass tps sc
    else fixLoop tps fuel (scanPass tps sc)

/-- The scope set computed by `trimToScope`, seeded with `{"?POF"}`. -/
def fixScope (tps : List triplePattern) : List String :=
  fixLoop tps (3 * tps.length + 2) [pofTerm]

/-- Go `Scope.trimToScope`: compute the reachability fixed point and keep
only the patterns touching it, in their original order. -/
def trimToScope (b : Scope) : Scope :=
  let F := fixScope b.Tps
  { b with scope := F, Tps := b.Tps.filter (fun tp => tpIn tp F) }

/-- The least reachability set of the specification: seeded with `?POF`;
a pattern with any term in the set contributes all three of its terms. -/
inductive Reach (tps : List triplePattern) : String → Prop where
  | seed : Reach tps pofTerm
  | step (tp : triplePattern) (htp : tp ∈ tps) (t : String) (ht : t ∈ terms tp)
      (hr : Reach tps t) (u : String) (hu : u ∈ terms tp) : Reach tps u

lemma subset_insertT (sc : List String) (x : String) : sc ⊆ insertT sc x := by
  unfold insertT
  split
  · exact fun _ h => h
  · exact List.subset_append_left sc [x]

lemma mem_insertT_self (sc : List String) (x : String) : x ∈ insertT sc x := by
  unfold insertT
  split
  · assumption
  · exact List.mem_append_right sc (List.mem_singleton.mpr rfl)

lemma mem_insertT_iff (sc : List String) (x y : String) :
    y ∈ insertT sc x ↔ y ∈ sc ∨ y = x := by
  unfold insertT
  split
  · constructor
    · exact Or.inl
    · rintro (h | rfl)
      · exact h
      · assumption
  · simp

lemma insertT_nodup (sc : List String) (x : String) (h : sc.Nodup) :
    (insertT sc x).Nodup := by
  unfold insertT
  split
  · exact h
  · simp_all [List.nodup_append]

lemma length_insertT_ge (sc : List String) (x : String) :
    sc.length ≤ (insertT sc x).length := by
  unfold insertT
  split
  · exact Nat.le_refl _
  · simp

lemma insertT_eq_of_length (sc : List String) (x : String)
    (h : (insertT sc x).length = sc.length) : insertT sc x = sc := by
  unfold insertT at *
  split at h
  · simp [insertT, *]
  · simp at h

lemma insertT_subset_of (sc u : List String) (x : String)
    (hs : sc ⊆ u) (hx : x ∈ u) : insertT sc x ⊆ u := by
  unfold insertT
  split
  · exact hs
  · intro y hy
    rcases List.mem_append.mp hy with h | h
    · exact hs h
    · rw [List.mem_singleton.mp h]; exact hx

lemma subset_addToScope (tp : triplePattern) (sc : List String) :
    sc ⊆ addToScope tp sc :=
  fun _ h => subset_insertT _ _ (subset_insertT _ _ (subset_insertT _ _ h))

lemma mem_addToScope_of_term (tp : triplePattern) (sc : List String)
    (t : String) (ht : t ∈ terms tp) : t ∈ addToScope tp sc := by
  simp [terms] at ht
  unfold addToScope
  rcases ht with rfl | rfl | rfl
  · exact subset_insertT _ _ (subset_insertT _ _ (mem_insertT_self _ _))
  · exact subset_insertT _ _ (mem_insertT_self _ _)
  · exact mem_insertT_self _ _

lemma mem_addToScope_iff (tp : triplePattern) (sc : List String) (y : String) :
    y ∈ addToScope tp sc ↔ y ∈ sc ∨ y ∈ terms tp := by
  unfold addToScope terms
  rw [mem_insertT_iff, mem_insertT_iff, mem_insertT_iff]
  simp [or_assoc]

lemma addToScope_nodup (tp : triplePattern) (sc : List String) (h : sc.Nodup) :
    (addToScope tp sc).Nodup :=
  insertT_nodup _ _ (insertT_nodup _ _ (insertT_nodup _ _ h))

lemma length_addToScope_ge (tp : triplePattern) (sc : List String) :
    sc.length ≤ (addToScope tp sc).length :=
  Nat.le_trans (length_insertT_ge _ _)
    (Nat.le_trans (length_insertT_ge _ _) (length_insertT_ge _ _))

lemma addToScope_eq_of_length (tp : triplePattern) (sc : List String)
    (h : (addToScope tp sc).length = sc.length) : addToScope tp sc = sc := by
  unfold addToScope at *
  have h1 := length_insertT_ge sc tp.S
  have h2 := length_insertT_ge (insertT sc tp.S) tp.P
  have h3 := length_insertT_ge (insertT (insertT sc tp.S) tp.P) tp.O
  have e3 : insertT (insertT (insertT sc tp.S) tp.P) tp.O
      = insertT (insertT sc tp.S) tp.P := insertT_eq_of_length _ _ (by omega)
  rw [e3] at h ⊢
  have e2 : insertT (insertT sc tp.S) tp.P = insertT sc tp.S :=
    insertT_eq_of_length _ _ (by omega)
  rw [e2] at h ⊢
  exact insertT_eq_of_length _ _ (by omega)

lemma addToScope_subset_of (tp : triplePattern) (sc u : List String)
    (hs : sc ⊆ u) (ht : ∀ t ∈ terms tp, t ∈ u) : addToScope tp sc ⊆ u := by
  unfold addToScope
  apply insertT_subset_of
  · apply insertT_subset_of
    · apply insertT_subset_of _ _ _ hs
      exact ht _ (by simp [terms])
    · exact ht _ (by simp [terms])
  · exact ht _ (by simp [terms])

lemma tpIn_eq (tp : triplePattern) (sc : List String) :
    tpIn tp sc = true ↔ (tp.S ∈ sc ∨ tp.P ∈ sc ∨ tp.O ∈ sc) := by
  simp [tpIn, or_assoc]

lemma tpIn_iff (tp : triplePattern) (sc : List String) :
    tpIn tp sc = true ↔ ∃ t ∈ terms tp, t ∈ sc := by
  rw [tpIn_eq]
  constructor
  · rintro (h | h | h)
    · exact ⟨tp.S, by simp [terms], h⟩
    · exact ⟨tp.P, by simp [terms], h⟩
    · exact ⟨tp.O, by simp [terms], h⟩
  · rintro ⟨t, ht, hmem⟩
    simp [terms] at ht
    rcases ht with rfl | rfl | rfl
    · exact Or.inl hmem
    · exact Or.inr (Or.inl hmem)
    · exact Or.inr (Or.inr hmem)

lemma tpIn_mono (tp : triplePattern) (sc sc' : List String)
    (hsub : sc ⊆ sc') (h : tpIn tp sc = true) : tpIn tp sc' = true := by
  rw [tpIn_iff] at h ⊢
  rcases h with ⟨t, ht, hmem⟩
  exact ⟨t, ht, hsub hmem⟩

lemma subset_pass (tps : List triplePattern) (sc : List String) :
    sc ⊆ scanPass tps sc := by
  induction tps generalizing sc with
  | nil => exact fun _ h => h
  | cons tp rest ih =>
    intro y hy
    unfold scanPass List.foldl
    split
    · exact ih _ (subset_addToScope _ _ hy)
    · exact ih _ hy

lemma pass_nodup (tps : List triplePattern) (sc : List String)
    (h : sc.Nodup) : (scanPass tps sc).Nodup := by
  induction tps generalizing sc with
  | nil => exact h
  | cons tp rest ih =>
    unfold scanPass List.foldl
    split
    · exact ih _ (addToScope_nodup _ _ h)
    · exact ih _ h

lemma pass_subset_of (tps : List triplePattern) (sc u : List String)
    (hs : sc ⊆ u) (ht : ∀ tp ∈ tps, ∀ t ∈ terms tp, t ∈ u) :
    scanPass tps sc ⊆ u := by
  induction tps generalizing sc with
  | nil => exact hs
  | cons tp rest ih =>
    unfold scanPass List.foldl
    split
    · exact ih _ (addToScope_subset_of _ _ _ hs (ht tp (by simp)))
        (fun tp' h' => ht tp' (by simp [h']))
    · exact ih _ hs (fun tp' h' => ht tp' (by simp [h']))

lemma length_pass_ge (tps : List triplePattern) (sc : List String) :
    sc.length ≤ (scanPass tps sc).length := by
  induction tps generalizing sc with
  | nil => exact Nat.le_refl _
  | cons tp rest ih =>
    unfold scanPass List.foldl
    split
    · exact Nat.le_trans (length_addToScope_ge _ _) (ih _)
    · exact ih _

lemma pass_eq_of_length (tps : List triplePattern) (sc : List String)
    (h : (scanPass tps sc).length = sc.length) : scanPass tps sc = sc := by
  induction tps generalizing sc with
  | nil => rfl
  | cons tp rest ih =>
    unfold scanPass List.foldl at h ⊢
    split at h
    case isTrue hin =>
      have h1 := length_addToScope_ge tp sc
      have h2 := length_pass_ge rest (addToScope tp sc)
      have e1 : addToScope tp sc = sc := addToScope_eq_of_length _ _ (by
        unfold scanPass at h2
        omega)
      rw [e1] at h ⊢
      simp [hin]
      exact ih _ h
    case isFalse hin =>
      simp [hin]
      exact ih _ h

lemma pass_adds (tps : List triplePattern) (tp : triplePattern)
    (htp : tp ∈ tps) (sc : List String) (hin : tpIn tp sc = true) :
    ∀ u ∈ terms tp, u ∈ scanPass tps sc := by
  induction tps generalizing sc with
  | nil => cases htp
  | cons tp0 rest ih =>
    intro u hu
    unfold scanPass List.foldl
    rcases List.mem_cons.mp htp with rfl | htl
    · rw [hin]
      exact subset_pass rest _ (mem_addToScope_of_term _ _ _ hu)
    · split
      · exact ih htl _ (tpIn_mono _ _ _ (subset_addToScope _ _) hin) u hu
      · exact ih htl _ hin u hu

lemma pass_sound (tps0 : List triplePattern) (tps : List triplePattern)
    (hsub : tps ⊆ tps0) (sc : List String)
    (hsc : ∀ x ∈ sc, Reach tps0 x) :
    ∀ x ∈ scanPass tps sc, Reach tps0 x := by
  induction tps generalizing sc with
  | nil => exact hsc
  | cons tp rest ih =>
    unfold scanPass List.foldl
    split
    case isTrue hin =>
      apply ih (fun tp' h' => hsub (by simp [h']))
      intro x hx
      rcases (mem_addToScope_iff tp sc x).mp hx with h | h
      · exact hsc x h
      · rcases (tpIn_iff tp sc).mp hin with ⟨t, ht, htm⟩
        exact Reach.step tp (hsub (by simp)) t ht (hsc t htm) x h
    case isFalse hin =>
      exact ih (fun tp' h' => hsub (by simp [h'])) _ hsc

lemma subset_fixLoop (tps : List triplePattern) (fuel : Nat)
    (sc : List String) : sc ⊆ fixLoop tps fuel sc := by
  induction fuel generalizing sc with
  | zero => exact fun _ h => h
  | succ fuel ih =>
    unfold fixLoop
    split
    · exact subset_pass _ _
    · exact fun _ h => ih _ (subset_pass _ _ h)

lemma fixLoop_sound (tps : List triplePattern) (fuel : Nat)
    (sc : List String) (hsc : ∀ x ∈ sc, Reach tps x) :
    ∀ x ∈ fixLoop tps fuel sc, Reach tps x := by
  induction fuel generalizing sc with
  | zero => exact hsc
  | succ fuel ih =>
    unfold fixLoop
    split
    · exact pass_sound tps tps (fun _ h => h) sc hsc
    · exact ih _ (pass_sound tps tps (fun _ h => h) sc hsc)

lemma nodup_length_le (sc u : List String) (h1 : sc.Nodup) (h2 : sc ⊆ u) :
    sc.length ≤ u.length :=
  (h1.subperm h2).length_le

lemma fixLoop_fixed (tps : List triplePattern) (u : List String)
    (hterms : ∀ tp ∈ tps, ∀ t ∈ terms tp, t ∈ u) :
    ∀ (fuel : Nat) (sc : List String), sc.Nodup → sc ⊆ u →
      u.length + 1 ≤ fuel + sc.length →
      scanPass tps (fixLoop tps fuel sc) = fixLoop tps fuel sc := by
  intro fuel
  induction fuel with
  | zero =>
    intro sc hnd hsub hlen
    have := nodup_length_le sc u hnd hsub
    omega
  | succ fuel ih =>
    intro sc hnd hsub hlen
    unfold fixLoop
    split
    case isTrue heq =>
      have he : scanPass tps sc = sc := pass_eq_of_length _ _ heq
      rw [he]
      exact he
    case isFalse hne =>
      exact ih (scanPass tps sc) (pass_nodup _ _ hnd)
        (pass_subset_of _ _ _ hsub hterms)
        (by have := length_pass_ge tps sc; omega)

/-- All strings occurring as a term of some pattern, in order. -/
def allTerms : List triplePattern → List String
  | [] => []
  | tp :: rest => tp.S :: tp.P :: tp.O :: allTerms rest

lemma length_allTerms (tps : List triplePattern) :
    (allTerms tps).length = 3 * tps.length := by
  induction tps with
  | nil => rfl
  | cons tp rest ih => simp [allTerms, ih]; omega

lemma mem_allTerms_of (tps : List triplePattern) (tp : triplePattern)
    (htp : tp ∈ tps) (t : String) (ht : t ∈ terms tp) : t ∈ allTerms tps := by
  induction tps with
  | nil => cases htp
  | cons tp0 rest ih =>
    rcases List.mem_cons.mp htp with rfl | htl
    · simp [terms] at ht
      rcases ht with rfl | rfl | rfl <;> simp [allTerms]
    · simp [allTerms]
      exact Or.inr (Or.inr (Or.inr (ih htl)))

/-- The (duplicate-free) universe bounding the scope set: the seed plus
every term of every pattern. -/
def termUni (tps : List triplePattern) : List String :=
  (pofTerm :: allTerms tps).dedup

lemma fixScope_fixed (tps : List triplePattern) :
    scanPass tps (fixScope tps) = fixScope tps := by
  unfold fixScope
  apply fixLoop_fixed tps (termUni tps)
  · intro tp htp t ht
    exact List.mem_dedup.mpr (List.mem_cons.mpr
      (Or.inr (mem_allTerms_of tps tp htp t ht)))
  · simp
  · intro x hx
    rw [List.mem_singleton.mp hx]
    exact List.mem_dedup.mpr (List.mem_cons.mpr (Or.inl rfl))
  · have h1 : (termUni tps).length ≤ (pofTerm :: allTerms tps).length :=
      (List.dedup_sublist _).length_le
    simp [length_allTerms] at h1
    simp
    omega

/-- The scope set computed by `trimToScope` is exactly the least
reachability set of the specification. -/
theorem mem_fixScope_iff (tps : List triplePattern) (x : String) :
    x ∈ fixScope tps ↔ Reach tps x := by
  constructor
  · intro hx
    refine fixLoop_sound tps _ _ ?_ x hx
    intro y hy
    rw [List.mem_singleton.mp hy]
    exact Reach.seed
  · intro hr
    induction hr with
    | seed =>
      exact subset_fixLoop _ _ _ (List.mem_singleton.mpr rfl)
    | step tp htp t ht hr u hu iht =>
      have hin : tpIn tp (fixScope tps) = true := (tpIn_iff _ _).mpr ⟨t, ht, iht⟩
      have := pass_adds tps tp htp (fixScope tps) hin u hu
      rwa [fixScope_fixed] at this

lemma reach_trim (tps : List triplePattern) (x : String) (h : Reach tps x) :
    Reach (tps.filter (fun tp => tpIn tp (fixScope tps))) x := by
  induction h with
  | seed => exact Reach.seed
  | step tp htp t ht hr u hu iht =>
    have htF : t ∈ fixScope tps := (mem_fixScope_iff tps t).mpr hr
    have hin : tpIn tp (fixScope tps) = true := (tpIn_iff _ _).mpr ⟨t, ht, htF⟩
    have hmem : tp ∈ tps.filter (fun tp => tpIn tp (fixScope tps)) :=
      List.mem_filter.mpr ⟨htp, hin⟩
    exact Reach.step tp hmem t ht iht u hu

lemma trim_Tps_idem (b : Scope) :
    (trimToScope (trimToScope b)).Tps = (trimToScope b).Tps := by
  show ((b.Tps.filter (fun tp => tpIn tp (fixScope b.Tps))).filter
      (fun tp => tpIn tp (fixScope (b.Tps.filter
        (fun tp => tpIn tp (fixScope b.Tps))))))
    = b.Tps.filter (fun tp => tpIn tp (fixScope b.Tps))
  apply List.filter_eq_self.mpr
  intro tp htp
  rcases List.mem_filter.mp htp with ⟨hmem, hin⟩
  rcases (tpIn_iff _ _).mp hin with ⟨t, ht, htF⟩
  have hr : Reach b.Tps t := (mem_fixScope_iff _ _).mp htF
  have hr' := reach_trim b.Tps t hr
  have htF' : t ∈ fixScope (b.Tps.filter (fun tp => tpIn tp (fixScope b.Tps))) :=
    (mem_fixScope_iff _ _).mpr hr'
  exact (tpIn_iff _ _).mpr ⟨t, ht, htF'⟩

/-- Claim C3: `trimToScope` keeps exactly the patterns having at least one
term in the least reachability fixed point seeded with `?POF` (any pattern
with a term in the set contributes all three of its terms), discards every
pattern with no term in the final set, and, being a filter of the original
list, preserves the original relative order of the kept patterns. -/
theorem trimToScope_reach_characterization (b : Scope) :
    ((trimToScope b).Tps).Sublist b.Tps ∧
    (∀ tp, tp ∈ (trimToScope b).Tps ↔
      (tp ∈ b.Tps ∧ ∃ t ∈ terms tp, Reach b.Tps t)) := by
  constructor
  · exact List.filter_sublist b.Tps
  · intro tp
    show tp ∈ b.Tps.filter (fun tp => tpIn tp (fixScope b.Tps)) ↔ _
    rw [List.mem_filter]
    constructor
    · rintro ⟨hmem, hin⟩
      rcases (tpIn_iff _ _).mp hin with ⟨t, ht, htF⟩
      exact ⟨hmem, t, ht, (mem_fixScope_iff _ _).mp htF⟩
    · rintro ⟨hmem, t, ht, hr⟩
      exact ⟨hmem, (tpIn_iff _ _).mpr ⟨t, ht, (mem_fixScope_iff _ _).mpr hr⟩⟩

/-- Claim C6: `trimToScope` is idempotent on the pattern list. -/
theorem trimToScope_idempotent (b : Scope) :
    (trimToScope (trimToScope b)).Tps = (trimToScope b).Tps :=
  trim_Tps_idem b

/-- The concrete Scope for claim C8: the second pattern shares only the
constant type-shortcut predicate `a` with the pattern holding `?POF`. -/
def c8Scope : Scope :=
  { Tps := [⟨"?s", "a", "?POF"⟩, ⟨"?t", "a", "?u"⟩] }

/-- Claim C8: non-variable terms connect patterns exactly like variables in
the trimming reachability relation.  In `c8Scope` the pattern
`(?t, a, ?u)` contains no `?POF` and shares only the constant `a` (not a
variable) with the focus pattern `(?s, a, ?POF)`, yet `trimToScope` keeps
both patterns. -/
theorem trimToScope_keeps_constant_linked :
    (trimToScope c8Scope).Tps = c8Scope.Tps ∧
    pofTerm ∉ terms ⟨"?t", "a", "?u"⟩ ∧
    (terms ⟨"?t", "a", "?u"⟩).filter
      (fun x => decide (x ∈ terms ⟨"?s", "a", "?POF"⟩)) = ["a"] ∧
    (¬ ∃ v ∈ terms ⟨"?t", "a", "?u"⟩, v ∈ terms ⟨"?s", "a", "?POF"⟩ ∧
      (v.data.head? = some '?' ∨ v.data.head? = some '$')) := by
  refine ⟨?_, by decide, by decide, by decide⟩
  decide

/-- Claim C7's subject, Go `Scope.Reset`: after a reset the pattern list is
empty, the keyword is cleared, the path length is zero and the POF
projection is back to its default `?POF`. -/
theorem reset_clears_scope (b : Scope) :
    (Reset b).Tps = [] ∧ (Reset b).Keyword = "" ∧
    (Reset b).pathLength = 0 ∧ (Reset b).Pof = "?POF" :=
  ⟨rfl, rfl, rfl, rfl⟩


/-- The index of the first pattern whose predicate is `?POF` (the
`for ind, tp := range b.Tps` search with `break` in
`addIntermediatePath`). -/
def findPofIdx : List triplePattern → Option Nat
  | [] => none
  | tp :: rest =>
    if tp.P = "?POF" then some 0 else (findPofIdx rest).map (· + 1)

/-- The `for i := 1; i < b.pathLength; i++` loop of `addIntermediatePath`,
indexed structurally by the number `d` of remaining iterations
(`d = pathLength - i`, so the loop guard `i < pathLength` is exactly
`d > 0`): returns the synthetic intermediate patterns in append order and
the final value of `inter`. -/
def interGo (tpS tpO : String) : Nat → Nat → String → List triplePattern × String
  | 0, _, inter => ([], inter)
  | Nat.succ d, i, inter =>
    let inter2 := "?" ++ tpS.drop 1 ++ tpO.drop 1 ++ toString i
    let rest := interGo tpS tpO d (i + 1) inter2
    (⟨inter, "?POF" ++ toString i, inter2⟩ :: rest.1, rest.2)

/-- The string-building `for i := 1; i <= pathLength; i++` loop of Go
`pathPof`, indexed structurally by the number `d` of remaining iterations
(`d = pathLength + 1 - i`, so the loop guard `i <= pathLength` is exactly
`d > 0`).  Appending the empty string when `i = pathLength` matches Go's
skipping of the trailing separator. -/
def pathPofGo (pl : Nat) : Nat → Nat → String → String
  | 0, _, pof => pof
  | Nat.succ d, i, pof =>
    pathPofGo pl d (i + 1)
      ((if 1 < i then pof ++ ", " else pof) ++ "\"<\", ?POF" ++ toString i
        ++ ", \">\"" ++ (if i < pl then (", \" / \"") else ("")))

/-- Go `pathPof`: the `?POF` projection expression concatenating the
intermediate property variables. -/
def pathPof (pl : Nat) : String :=
  (pathPofGo pl pl 1 ("(concat(")) ++ ") as ?POF)"

/-- Go `Scope.addIntermediatePath`: a no-op when `pathLength` is zero;
otherwise the first pattern whose predicate is `?POF` (if any) is rewritten
into a chain of `pathLength` synthetic patterns — the intermediates are
appended, the matched pattern's subject and predicate are overwritten in
place — and `Pof` becomes `pathPof pathLength`. -/
def addIntermediatePath (b : Scope) : Scope :=
  if b.pathLength = 0 then b
  else
    match findPofIdx b.Tps with
    | none => b
    | some ind =>
      let tp := b.Tps.getD ind ⟨"", "", ""⟩
      let pr := interGo tp.S tp.O (b.pathLength - 1) 1 tp.S
      let tps2 := (b.Tps ++ pr.1).set ind
        ⟨pr.2, "?POF" ++ toString b.pathLength, tp.O⟩
      { b with Tps := tps2, Pof := pathPof b.pathLength }

/-- One hop of the specified POF projection: the synthetic predicate
variable `?POFi` wrapped in the `"<"`/`">"` concatenation pieces. -/
def pofPiece (i : Nat) : String :=
  "\"<\", ?POF" ++ toString i ++ ", \">\""

/-- Joining hop pieces with the `" / "` separator piece between
consecutive hops. -/
def joinHops : List String → String
  | [] => ""
  | [x] => x
  | x :: y :: rest => x ++ (", \" / \", " ++ joinHops (y :: rest))

/-- The POF projection expression as the specification words it: for path
length `n`, the `n` synthetic predicate variables `?POF1` … `?POFn` in hop
order, each wrapped in angle-bracket concatenation pieces, joined by the
`" / "` separator between consecutive hops, inside a `concat(…) as ?POF`
binder. -/
def pathPofSpec (n : Nat) : String :=
  "(concat(" ++ joinHops ((List.range' 1 n).map pofPiece) ++ ") as ?POF)"

lemma sep_merge (x : String) :
    (", \" / \"" : String) ++ (", " ++ x) = ", \" / \", " ++ x := by
  rw [← String.append_assoc]
  congr 1

lemma pathPofGo_spec (pl : Nat) :
    ∀ d i pof, d + i = pl + 1 → 1 ≤ i → i ≤ pl →
      pathPofGo pl d i pof =
        pof ++ ((if 1 < i then (", ") else ("")) ++
          joinHops ((List.range' i d).map pofPiece)) := by
  intro d
  induction d with
  | zero => intro i pof hsum h1 h2; omega
  | succ d ih =>
    intro i pof hsum h1 h2
    show pathPofGo pl d (i + 1) _ = _
    by_cases hd : d = 0
    · subst hd
      have hip : i = pl := by omega
      show (if 1 < i then pof ++ ", " else pof) ++ "\"<\", ?POF" ++ toString i
          ++ ", \">\"" ++ (if i < pl then (", \" / \"") else ("")) = _
      rw [if_neg (by omega : ¬ i < pl)]
      rw [List.range'_one, List.map_cons, List.map_nil, joinHops]
      by_cases h1i : 1 < i
      · rw [if_pos h1i, if_pos h1i]
        simp only [pofPiece, String.append_assoc, String.append_empty]
      · rw [if_neg h1i, if_neg h1i]
        simp only [pofPiece, String.append_assoc, String.append_empty,
          String.empty_append]
    · have hlt : i < pl := by omega
      rw [ih (i + 1) _ (by omega) (by omega) (by omega)]
      rw [if_pos (by omega : 1 < i + 1)]
      rw [if_pos hlt]
      have hd1 : d = (d - 1) + 1 := by omega
      rw [List.range'_succ, List.map_cons]
      rw [hd1, List.range'_succ, List.map_cons, joinHops]
      by_cases h1i : 1 < i
      · rw [if_pos h1i, if_pos h1i]
        simp only [pofPiece, String.append_assoc]
        rw [sep_merge]
      · rw [if_neg h1i, if_neg h1i]
        simp only [pofPiece, String.append_assoc, String.empty_append]
        rw [sep_merge]

lemma pathPof_eq_spec (n : Nat) (hn : 1 ≤ n) : pathPof n = pathPofSpec n := by
  unfold pathPof pathPofSpec
  rw [pathPofGo_spec n n 1 ("(concat(") (by omega) (by omega) hn]
  rw [if_neg (by omega : ¬ 1 < 1)]
  rw [String.empty_append]

lemma findPofIdx_ne_none (tps : List triplePattern)
    (h : ∃ tp ∈ tps, tp.P = "?POF") : findPofIdx tps ≠ none := by
  induction tps with
  | nil => rcases h with ⟨tp, htp, _⟩; cases htp
  | cons tp0 rest ih =>
    unfold findPofIdx
    split
    · exact Option.some_ne_none _
    case isFalse hne =>
      rcases h with ⟨tp, htp, hp⟩
      rcases List.mem_cons.mp htp with rfl | htl
      · exact absurd hp hne
      · intro hmap
        exact ih ⟨tp, htl, hp⟩ (Option.map_eq_none'.mp hmap)

/-- Claim C5: for a Scope with `pathLength = N > 0` containing a pattern
whose predicate is `?POF`, `addIntermediatePath` sets the `Pof` projection
to exactly the `N` synthetic predicate variables `?POF1` … `?POFN`, in hop
order, each wrapped in angle-bracket concatenation pieces and joined by
the `" / "` separator between consecutive hops. -/
theorem addIntermediatePath_pof_projection (b : Scope) (n : Nat)
    (hl : b.pathLength = n) (hn : 0 < n)
    (hex : ∃ tp ∈ b.Tps, tp.P = "?POF") :
    (addIntermediatePath b).Pof = pathPofSpec n := by
  unfold addIntermediatePath
  rw [if_neg (by omega : ¬ b.pathLength = 0)]
  rcases ho : findPofIdx b.Tps with _ | ind
  · exact absurd ho (findPofIdx_ne_none b.Tps hex)
  · show pathPof b.pathLength = pathPofSpec n
    rw [hl]
    exact pathPof_eq_spec n hn

/-- The concrete Scope witnessing claim C5's hypotheses. -/
def c5Scope : Scope := { Tps := [⟨"?s", "?POF", "?o"⟩], pathLength := 3 }

/-- Claim C5 witness: the projection produced for a 3-hop path request. -/
theorem addIntermediatePath_pof_projection_witness :
    (addIntermediatePath c5Scope).Pof = pathPofSpec 3 :=
  addIntermediatePath_pof_projection c5Scope 3 rfl (by omega)
    ⟨⟨"?s", "?POF", "?o"⟩, by simp [c5Scope], rfl⟩

/-- Go's `Type` enumeration of recommendation kinds (named `RecType` here
because `Type` is reserved in Lean). -/
inductive RecType where
  | NONE
  | CLASS
  | PREDICATE
  | PATH
  | SUBJECT
  | OBJECT
deriving DecidableEq, Repr

/-- The pattern-scanning loop of Go `RecommendationType`: the four rules
are tried in order on each pattern before moving to the next pattern. -/
def recTypeGo : List triplePattern → RecType
  | [] => RecType.NONE
  | tp :: rest =>
    if tp.P = "?POF" then RecType.PREDICATE
    else if tp.P = "a" ∧ tp.O = "?POF" then RecType.CLASS
    else if tp.O = "?POF" then RecType.OBJECT
    else if tp.S = "?POF" then RecType.SUBJECT
    else recTypeGo rest

/-- Go `Scope.RecommendationType`. -/
def RecommendationType (b : Scope) : RecType :=
  if b.pathLength ≠ 0 then RecType.PATH else recTypeGo b.Tps

/-- The first rule, in rule order, matching one pattern — following the
claim's wording of the classifier. -/
def ruleOf (tp : triplePattern) : Option RecType :=
  if tp.P = "?POF" then some RecType.PREDICATE
  else if tp.P = "a" ∧ tp.O = "?POF" then some RecType.CLASS
  else if tp.O = "?POF" then some RecType.OBJECT
  else if tp.S = "?POF" then some RecType.SUBJECT
  else none

/-- The classifier as claim C4 words it: `PATH` whenever `pathLength` is
non-zero regardless of pattern shapes; otherwise scan the patterns in
order, and for the first pattern matching any rule apply the rules in
order (`PREDICATE`, `CLASS`, `OBJECT`, `SUBJECT`); `NONE` when no pattern
matches any rule. -/
def classifySpec (b : Scope) : RecType :=
  if b.pathLength ≠ 0 then RecType.PATH
  else (b.Tps.findSome? ruleOf).getD RecType.NONE

lemma recTypeGo_eq_findSome (tps : List triplePattern) :
    recTypeGo tps = (tps.findSome? ruleOf).getD RecType.NONE := by
  induction tps with
  | nil => rfl
  | cons tp rest ih =>
    rw [List.findSome?_cons]
    unfold recTypeGo ruleOf
    split
    · rfl
    · split
      · rfl
      · split
        · rfl
        · split
          · rfl
          · exact ih

/-- Claim C4: `RecommendationType` returns `PATH` whenever `pathLength` is
non-zero regardless of pattern shapes; otherwise it scans the patterns in
order and applies, to the first pattern matching any rule, the rules in
the order predicate-is-`?POF` (`PREDICATE`), predicate-is-`a`-and-
object-is-`?POF` (`CLASS`), object-is-`?POF` (`OBJECT`),
subject-is-`?POF` (`SUBJECT`); `NONE` when no pattern matches. -/
theorem recommendationType_matches_spec (b : Scope) :
    RecommendationType b = classifySpec b := by
  unfold RecommendationType classifySpec
  split
  · rfl
  · exact recTypeGo_eq_findSome b.Tps

/-- The rendering function of the default template built by Go `NewScope`:
the template's literal text with `\x7b\x7b.Pof\x7d\x7d` substituted, one
`S P O .` line per pattern from the `range` action, and the keyword filter
line emitted exactly when `Keyword` is non-empty (Go template truthiness
for strings). -/
def defaultRender (v : RenderView) : String :=
  "\n        SELECT DISTINCT " ++ v.Pof
  ++ "\n        WHERE \x7b\n        "
  ++ String.join (v.Tps.map (fun tp =>
      "\n            " ++ tp.S ++ " " ++ tp.P ++ " " ++ tp.O ++ " .\n        "))
  ++ "\n        "
  ++ (if v.Keyword ≠ "" then
      ("\n            FILTER regex(?POF, \"") ++ v.Keyword ++ "\", \"i\")\n        "
    else (""))
  ++ "\n        \x7d\n        LIMIT 10\n    "

/-- The template-visible projection of a Scope (what `Execute` hands to
the template engine). -/
def view (b : Scope) : RenderView :=
  ⟨b.S, b.P, b.O, b.Tps, b.Keyword, b.Pof⟩

/-- Go `Scope.RecommendationQuery`: trims, expands the path, then executes
the template on the receiver.  The Go method both returns the rendered
string and leaves the receiver mutated, so the embedding returns the
output together with the post-call Scope; executing a nil template (a Go
run-time panic) is the `none` outcome. -/
def RecommendationQuery (b : Scope) : Option String × Scope :=
  let b2 := addIntermediatePath (trimToScope b)
  (b2.template.map (fun render => render (view b2)), b2)

/-- Go `NewScopeWithTemplate`: builds a Scope with the default `?POF`
projection and stores whatever `template.Parse` returned, discarding the
error (`tp, _ := template.New("rec").Parse(tmpl)`).  The external
`text/template` parser is abstracted as the `parse` argument; a parse
failure stores `none` (Go: a nil template pointer). -/
def NewScopeWithTemplate (parse : String → Option (RenderView → String))
    (tmpl : String) : Scope :=
  { Pof := "?POF", template := parse tmpl }

lemma addIntermediatePath_zero (b : Scope) (h : b.pathLength = 0) :
    addIntermediatePath b = b := by
  unfold addIntermediatePath
  rw [if_pos h]

lemma addIntermediatePath_template (b : Scope) :
    (addIntermediatePath b).template = b.template := by
  unfold addIntermediatePath
  split
  · rfl
  · split
    · rfl
    · rfl

/-- Claim C2 amended: with `pathLength = 0` (no path expansion), calling
`RecommendationQuery` a second time on the Scope left by the first call
returns a byte-identical string, for every stored template. -/
theorem recommendationQuery_stable_of_no_path (b : Scope)
    (h : b.pathLength = 0) :
    (RecommendationQuery ((RecommendationQuery b).2)).1 =
      (RecommendationQuery b).1 := by
  have htrim0 : (trimToScope b).pathLength = 0 := h
  have h1 : addIntermediatePath (trimToScope b) = trimToScope b :=
    addIntermediatePath_zero _ htrim0
  simp only [RecommendationQuery]
  rw [h1]
  have htrim0' : (trimToScope (trimToScope b)).pathLength = 0 := h
  rw [addIntermediatePath_zero _ htrim0']
  have hv : view (trimToScope (trimToScope b)) = view (trimToScope b) := by
    unfold view
    rw [trim_Tps_idem]
    rfl
  rw [hv]
  have ht2 : (trimToScope (trimToScope b)).template
      = (trimToScope b).template := rfl
  rw [ht2]

/-- The Scope used to instantiate claim C2's amended statement. -/
def c2Witness : Scope :=
  { Tps := [⟨"?s", "a", "?POF"⟩], template := some defaultRender }

/-- Claim C2 witness: the amended stability at a concrete Scope with the
default template. -/
theorem recommendationQuery_stable_witness :
    (RecommendationQuery ((RecommendationQuery c2Witness).2)).1 =
      (RecommendationQuery c2Witness).1 :=
  recommendationQuery_stable_of_no_path c2Witness rfl

/-- The concrete Scope refuting claim C2 as stated: a 2-hop path request.
The first call expands `(?s, ?POF, ?o)` into synthetic `?POF1`/`?POF2`
patterns; the second call's trimming finds no term equal to `?POF` any
more and discards every pattern, so the second rendering differs. -/
def c2PathScope : Scope :=
  { Tps := [⟨"?s", "?POF", "?o"⟩], pathLength := 2,
    template := some defaultRender }

/-- Claim C2 counterexample: with a non-zero path length the second
`RecommendationQuery` call does not reproduce the first call's string. -/
theorem recommendationQuery_second_call_differs :
    (RecommendationQuery ((RecommendationQuery c2PathScope).2)).1 ≠
      (RecommendationQuery c2PathScope).1 := by decide

/-- Claim C9: `NewScopeWithTemplate` reports no template-parse failure —
it is total and always returns a Scope whose `Pof` is `?POF`; when the
template string fails to parse, the stored template is nil (`none`) and a
subsequent `RecommendationQuery`, which executes through the nil template,
has no rendered output: rendering is not total for such Scopes. -/
theorem newScopeWithTemplate_never_fails
    (parse : String → Option (RenderView → String)) (tmpl : String) :
    (NewScopeWithTemplate parse tmpl).Pof = "?POF" ∧
    (parse tmpl = none →
      (NewScopeWithTemplate parse tmpl).template = none ∧
      (RecommendationQuery (NewScopeWithTemplate parse tmpl)).1 = none) := by
  refine ⟨rfl, fun h => ⟨h, ?_⟩⟩
  simp only [RecommendationQuery]
  rw [addIntermediatePath_template]
  have ht : (trimToScope (NewScopeWithTemplate parse tmpl)).template
      = parse tmpl := rfl
  rw [ht, h]
  rfl

/-- Claim C9 witness: a failing parse yields a `none` template, default
`Pof`, and no rendered query. -/
theorem newScopeWithTemplate_never_fails_witness :
    (NewScopeWithTemplate (fun _ => none) "x").Pof = "?POF" ∧
    (NewScopeWithTemplate (fun _ => none) "x").template = none ∧
    (RecommendationQuery (NewScopeWithTemplate (fun _ => none) "x")).1
      = none :=
  ⟨(newScopeWithTemplate_never_fails (fun _ => none) "x").1,
    ((newScopeWithTemplate_never_fails (fun _ => none) "x").2 rfl).1,
    ((newScopeWithTemplate_never_fails (fun _ => none) "x").2 rfl).2⟩

/-- Go `eval.Recommendation`: a candidate item with its co-occurrence
count. -/
structure Recommendation where
  item : String
  count : Int
deriving DecidableEq, Repr

/-- Go `sort.Reverse(pofs)` as called in `getRecommendations`: the
standard-library function only wraps the `ByCount` interface in a
reversed-comparison view and returns it; the call site discards that
return value and never calls `sort.Sort`, so the underlying slice is left
exactly as it was. -/
def sortReverse (bc : List Recommendation) : List Recommendation := bc

/-- The top-candidate selection of `getRecommendations`:
`min := int(math.Min(10, float64(len(pofs)))); top := pofs[:min]` after
the (ineffective) `sort.Reverse` call.  The input list order is the Go
map-iteration order of the aggregated counts. -/
def topCandidates (pofs : List Recommendation) : List Recommendation :=
  let pofs := sortReverse pofs
  pofs.take (min 10 pofs.length)

/-- The phase-2 `values ?POF { … }` block of `getRecommendations`, built
from the selected candidates. -/
def valuesBlock (top : List Recommendation) : String :=
  "values ?POF \x7b " ++
    String.join (top.map (fun r => "<" ++ r.item ++ "> ")) ++ "\x7d"

/-- Eleven distinct candidates whose counts ascend in list order: the
candidate with the largest count sits last, as a Go map iteration may
well present it. -/
def c1Pofs : List Recommendation :=
  (List.range 11).map (fun i => ⟨"x" ++ toString i, (i : Int) + 1⟩)

/-- Claim C1 evaluation at the failing input: with eleven candidates in
ascending count order, `sort.Reverse` leaves the list unsorted, and the
candidate with the maximum count 11 is *not* among the ten candidates
bound into the phase-2 VALUES block, while a count-1 candidate is —
contradicting the claimed descending sort and top-`min(10, N)` selection.
-/
theorem topCandidates_misses_top :
    sortReverse c1Pofs = c1Pofs ∧
    (⟨"x10", 11⟩ : Recommendation) ∈ c1Pofs ∧
    (∀ r ∈ c1Pofs, r.count ≤ 11) ∧
    (⟨"x10", 11⟩ : Recommendation) ∉ topCandidates c1Pofs ∧
    (⟨"x0", 1⟩ : Recommendation) ∈ topCandidates c1Pofs ∧
    (valuesBlock (topCandidates c1Pofs) =
      "values ?POF \x7b <x0> <x1> <x2> <x3> <x4> <x5> <x6> <x7> <x8> <x9> \x7d")
    := by
  refine ⟨rfl, by decide, by decide, by decide, by decide, by decide⟩


/-- One iteration of the count loop in Go `eval.Measure`:
`if c < min { min = c }; if c > max { max = c }`. -/
def measureStep (mm : Int × Int) (c : Int) : Int × Int :=
  (if c < mm.1 then c else mm.1, if c > mm.2 then c else mm.2)

/-- The min/max accumulation of Go `eval.Measure`: starting from
`math.MaxInt32` and `0`, fold the phase-2 popularity counts.  (The
`float32` mean and the elapsed duration that `Measure` also returns are
outside this embedding; the claim concerns min and max.) -/
def measureMinMax (pofs : List Int) : Int × Int :=
  pofs.foldl measureStep (2147483647, 0)

/-- Claim C10 counterexample: `Measure`'s results are not always the true
extrema of a non-empty count list.  For the one-element list `[-1]` the
returned max `0` is not an element at all, and for `[2147483648]` the
returned min `2147483647` is not an element either. -/
theorem measureMinMax_not_true_extrema :
    (measureMinMax [(-1 : Int)] = (-1, 0) ∧ (0 : Int) ∉ [(-1 : Int)]) ∧
    (measureMinMax [(2147483648 : Int)] = (2147483647, 2147483648) ∧
      (2147483647 : Int) ∉ [(2147483648 : Int)]) := by
  exact ⟨⟨by decide, by decide⟩, ⟨by decide, by decide⟩⟩

lemma measureFold_spec (l : List Int) :
    ∀ mn mx : Int,
      ((l.foldl measureStep (mn, mx)).1 = mn ∨
        (l.foldl measureStep (mn, mx)).1 ∈ l) ∧
      (l.foldl measureStep (mn, mx)).1 ≤ mn ∧
      (∀ c ∈ l, (l.foldl measureStep (mn, mx)).1 ≤ c) ∧
      ((l.foldl measureStep (mn, mx)).2 = mx ∨
        (l.foldl measureStep (mn, mx)).2 ∈ l) ∧
      mx ≤ (l.foldl measureStep (mn, mx)).2 ∧
      (∀ c ∈ l, c ≤ (l.foldl measureStep (mn, mx)).2) := by
  induction l with
  | nil =>
    intro mn mx
    exact ⟨Or.inl rfl, le_refl _, by simp, Or.inl rfl, le_refl _, by simp⟩
  | cons c0 rest ih =>
    intro mn mx
    rw [List.foldl_cons]
    have hstep : measureStep (mn, mx) c0 =
        (if c0 < mn then c0 else mn, if c0 > mx then c0 else mx) := rfl
    rw [hstep]
    have hA1 : (if c0 < mn then c0 else mn) ≤ mn := by split <;> omega
    have hA2 : (if c0 < mn then c0 else mn) ≤ c0 := by split <;> omega
    have hA3 : (if c0 < mn then c0 else mn) = c0 ∨
        (if c0 < mn then c0 else mn) = mn := by split <;> simp
    have hB1 : mx ≤ (if c0 > mx then c0 else mx) := by split <;> omega
    have hB2 : c0 ≤ (if c0 > mx then c0 else mx) := by split <;> omega
    have hB3 : (if c0 > mx then c0 else mx) = c0 ∨
        (if c0 > mx then c0 else mx) = mx := by split <;> simp
    obtain ⟨i1, i2, i3, i4, i5, i6⟩ :=
      ih (if c0 < mn then c0 else mn) (if c0 > mx then c0 else mx)
    refine ⟨?_, by omega, ?_, ?_, by omega, ?_⟩
    · rcases i1 with h | h
      · rcases hA3 with hA | hA
        · exact Or.inr (by rw [h, hA]; exact List.mem_cons_self _ _)
        · exact Or.inl (h.trans hA)
      · exact Or.inr (List.mem_cons_of_mem _ h)
    · intro c hcm
      rcases List.mem_cons.mp hcm with rfl | hm
      · omega
      · exact i3 c hm
    · rcases i4 with h | h
      · rcases hB3 with hB | hB
        · exact Or.inr (by rw [h, hB]; exact List.mem_cons_self _ _)
        · exact Or.inl (h.trans hB)
      · exact Or.inr (List.mem_cons_of_mem _ h)
    · intro c hcm
      rcases List.mem_cons.mp hcm with rfl | hm
      · omega
      · exact i6 c hm

/-- Claim C10 amended: for the empty phase-2 count list `Measure` returns
min = 2147483647 (`math.MaxInt32`) and max = 0, with min greater than max
signalling the degenerate case; for a non-empty list whose smallest count
is at most 2147483647 it returns the true minimum, and whenever some count
is nonnegative it returns the true maximum.  (Without those bounds the
initial accumulator values can survive the fold, as the counterexample
shows.) -/
theorem measureMinMax_amended (l : List Int) :
    (l = [] → measureMinMax l = (2147483647, 0)) ∧
    ((∃ c ∈ l, c ≤ 2147483647) →
      ((measureMinMax l).1 ∈ l ∧ ∀ c ∈ l, (measureMinMax l).1 ≤ c)) ∧
    ((∃ c ∈ l, 0 ≤ c) →
      ((measureMinMax l).2 ∈ l ∧ ∀ c ∈ l, c ≤ (measureMinMax l).2)) := by
  obtain ⟨i1, i2, i3, i4, i5, i6⟩ := measureFold_spec l 2147483647 0
  refine ⟨fun he => by rw [he]; rfl, fun hex => ⟨?_, i3⟩, fun hex => ⟨?_, i6⟩⟩
  · rcases i1 with h | h
    · rcases hex with ⟨c, hcm, hcle⟩
      have h2 := i3 c hcm
      have : (measureMinMax l).1 = c := by unfold measureMinMax; omega
      rw [this]
      exact hcm
    · exact h
  · rcases i4 with h | h
    · rcases hex with ⟨c, hcm, hcle⟩
      have h2 := i6 c hcm
      have : (measureMinMax l).2 = c := by unfold measureMinMax; omega
      rw [this]
      exact hcm
    · exact h

/-- Claim C10 witness: the amended statement evaluated on the concrete
non-empty list `[3, 5]` (and the empty list). -/
theorem measureMinMax_amended_witness :
    measureMinMax [] = (2147483647, 0) ∧
    ((measureMinMax [(3 : Int), 5]).1 ∈ [(3 : Int), 5] ∧
      ∀ c ∈ [(3 : Int), 5], (measureMinMax [(3 : Int), 5]).1 ≤ c) ∧
    ((measureMinMax [(3 : Int), 5]).2 ∈ [(3 : Int), 5] ∧
      ∀ c ∈ [(3 : Int), 5], c ≤ (measureMinMax [(3 : Int), 5]).2) :=
  ⟨(measureMinMax_amended []).1 rfl,
    (measureMinMax_amended [(3 : Int), 5]).2.1 ⟨3, by decide, by decide⟩,
    (measureMinMax_amended [(3 : Int), 5]).2.2 ⟨3, by decide, by decide⟩⟩
